import Mathlib

/-!
Verification of the hsvimage repository: HSV+alpha color models
(hsvcolor, src/unnamed/part_002) and the in-memory image buffers
(src/image.go), shallowly embedded in Lean.

Modelling conventions:
* Go machine integers are embedded as ℕ/ℤ.  Narrowing conversions that
  appear in the source (uint8(..), uint16(..)) are embedded as % 256 /
  % 65536.  Widening arithmetic that cannot wrap for values satisfying
  the source's type invariants (channels in [0,255] / [0,65535], the
  rgba contract range [0,65535]) is embedded without a wrap; theorems
  carry the corresponding range hypotheses.
* Go float64 arithmetic is embedded as exact rational arithmetic (ℚ).
  math.Mod / math.Abs become goMod / |·|; the float64-to-uint32
  conversion (truncation toward zero) becomes ratToU32.
* A Go panic is embedded as Option.none, so a function that can panic
  returns an Option and "does not panic" is "returns some".
* A Go slice of a backing array is embedded as an (offset, length) view;
  the backing store itself (Pix's array) is passed separately as a List,
  so that two views sharing one store model Go's slice aliasing.
* color.Color values reaching the conversion functions are embedded by
  the quadruple that their RGBA() method yields (the generic color
  contract: premultiplied 16-bit-range channels); color.Gray.RGBA and
  color.RGBA.RGBA from Go's image/color are embedded as grayRGBA/rgba8.
-/

namespace HsvRepo

/-! ### Rational stand-ins for Go float64 operations -/

/-- Truncation toward zero of a rational, the rounding Go uses both for
math.Mod's implied quotient and for float64-to-integer conversions. -/
def ratTrunc (q : ℚ) : ℤ := if 0 ≤ q then ⌊q⌋ else ⌈q⌉

/-- Go math.Mod: x - y*trunc(x/y) (result has the sign of x, |result| < |y|
for y > 0). -/
def goMod (x y : ℚ) : ℚ := x - y * (ratTrunc (x / y) : ℚ)

/-- Go float64-to-uint32 conversion for the nonnegative, in-range values the
conversion code produces: truncation toward zero. -/
def ratToU32 (q : ℚ) : ℕ := (ratTrunc q).toNat

/-! ### hsvcolor: src/unnamed/part_002 -/

/-- min3uint32 from src/unnamed/part_002. -/
def min3uint32 (a b c : ℕ) : ℕ :=
  let m := a
  let m := if b < m then b else m
  let m := if c < m then c else m
  m

/-- max3uint32 from src/unnamed/part_002. -/
def max3uint32 (a b c : ℕ) : ℕ :=
  let m := a
  let m := if b > m then b else m
  let m := if c > m then c else m
  m

/-- nhsvaFloat64ToRGBA from src/unnamed/part_002.  The two panic branches
(`hf6 too small` / `hf6 too large`) are embedded as none; the shared tail of
the switch (add mf, premultiply, convert) is the local function pack. -/
def nhsvaFloat64ToRGBA (hf sf vf af : ℚ) : Option (ℕ × ℕ × ℕ × ℕ) :=
  let cf := vf * sf
  let hf6 := hf / 60
  let xf := cf * (1 - |goMod hf6 2 - 1|)
  let pack : ℚ → ℚ → ℚ → Option (ℕ × ℕ × ℕ × ℕ) := fun rf gf bf =>
    let mf := vf - cf
    some (ratToU32 ((rf + mf) * af * 65535), ratToU32 ((gf + mf) * af * 65535),
      ratToU32 ((bf + mf) * af * 65535), ratToU32 (af * 65535))
  if hf6 < 0 then none
  else if hf6 ≤ 1 then pack cf xf 0
  else if hf6 ≤ 2 then pack xf cf 0
  else if hf6 ≤ 3 then pack 0 cf xf
  else if hf6 ≤ 4 then pack 0 xf cf
  else if hf6 ≤ 5 then pack xf 0 cf
  else if hf6 ≤ 6 then pack cf 0 xf
  else none

/-- hsvcolor.NHSVA: a non-alpha-premultiplied 32-bit HSV color; each field
models a uint8 channel in [0,255]. -/
structure NHSVA where
  H : ℕ
  S : ℕ
  V : ℕ
  A : ℕ
deriving DecidableEq, Repr

/-- hsvcolor.NHSVA64: a non-alpha-premultiplied 64-bit HSV color; each field
models a uint16 channel in [0,65535]. -/
structure NHSVA64 where
  H : ℕ
  S : ℕ
  V : ℕ
  A : ℕ
deriving DecidableEq, Repr

/-- hsvcolor.NHSVAF64: a non-alpha-premultiplied HSV color with float64
channels, embedded as rationals. -/
structure NHSVAF64 where
  H : ℚ
  S : ℚ
  V : ℚ
  A : ℚ
deriving DecidableEq

/-- NHSVA.RGBA from src/unnamed/part_002.  v16 |= v16 << 8 on a uint8-range
value is v ||| (v <<< 8). -/
def NHSVA.RGBA (c : NHSVA) : Option (ℕ × ℕ × ℕ × ℕ) :=
  let v16 := c.V ||| (c.V <<< 8)
  let a16 := c.A ||| (c.A <<< 8)
  if c.S = 0 then
    let v16pm := (v16 * a16 + 32768) / 65535
    some (v16pm, v16pm, v16pm, a16)
  else
    nhsvaFloat64ToRGBA ((c.H : ℚ) * 360 / 255) ((c.S : ℚ) / 255)
      ((c.V : ℚ) / 255) ((c.A : ℚ) / 255)

/-- NHSVA64.RGBA from src/unnamed/part_002. -/
def NHSVA64.RGBA (c : NHSVA64) : Option (ℕ × ℕ × ℕ × ℕ) :=
  let a16 := c.A
  if c.S = 0 then
    let v16pm := (c.V * a16 + 32768) / 65535
    some (v16pm, v16pm, v16pm, a16)
  else
    nhsvaFloat64ToRGBA ((c.H : ℚ) * 360 / 65535) ((c.S : ℚ) / 65535)
      ((c.V : ℚ) / 65535) ((c.A : ℚ) / 65535)

/-- The generic-conversion path of nhsva64Model (src/unnamed/part_002): the
input color is given by the quadruple its RGBA() method yields.  (The
identity fast path for an input that is already NHSVA64 is in the
dispatcher nhsva64Model below.)  The final uint16(…) narrowing conversions
are % 65536; int(…) of
a uint32 and the int arithmetic are exact in ℤ; Go's truncating int division
and remainder are Int.tdiv / Int.tmod. -/
def nhsva64ModelRGBA (r0 g0 b0 a : ℕ) : NHSVA64 :=
  if a = 0 then ⟨0, 0, 0, 0⟩
  else
    let r := r0 * 65535 / a
    let g := g0 * 65535 / a
    let b := b0 * 65535 / a
    let cMin := min3uint32 r g b
    let cMax := max3uint32 r g b
    let delta := cMax - cMin
    let v := cMax
    let s := if cMax > 0 then 65535 * delta / cMax else 0
    if delta = 0 then ⟨0, 0, v % 65536, a % 65536⟩
    else
      let ri : ℤ := r
      let gi : ℤ := g
      let bi : ℤ := b
      let di : ℤ := delta
      let h360 :=
        if cMax = r then (60 * (gi - bi)).tdiv di + 0
        else if cMax = g then (60 * (bi - ri)).tdiv di + 120
        else if cMax = b then (60 * (ri - gi)).tdiv di + 240
        else 0
      let h360 := (h360 + 360).tmod 360
      let h := ((h360 * 65535 + 180).tdiv 360).toNat
      ⟨h % 65536, s % 65536, v % 65536, a % 65536⟩

/-- The scale-down closure inside nhsvaModel (src/unnamed/part_002):
uint8((uint32(n16)*255 + 32768) / 65535). -/
def nhsvaScale (n16 : ℕ) : ℕ := ((n16 * 255 + 32768) / 65535) % 256

/-- The generic-conversion path of nhsvaModel (src/unnamed/part_002) for an
input whose conversion reaches nhsva64Model's generic path as well: produce
a 64-bit color from the RGBA() quadruple, then scale each channel down to 8
bits.  (The dispatcher nhsvaModel below carries both identity fast
paths.) -/
def nhsvaModelRGBA (r g b a : ℕ) : NHSVA :=
  let nhsva64 := nhsva64ModelRGBA r g b a
  ⟨nhsvaScale nhsva64.H, nhsvaScale nhsva64.S, nhsvaScale nhsva64.V,
    nhsvaScale nhsva64.A⟩

/-- The generic-conversion path of nhsvaF64Model (src/unnamed/part_002):
math.Min/math.Max are min/max on ℚ.  (The NHSVAF64 identity fast path is in
the dispatcher nhsvaF64Model below.) -/
def nhsvaF64ModelRGBA (r0 g0 b0 a : ℕ) : NHSVAF64 :=
  if a = 0 then ⟨0, 0, 0, 0⟩
  else
    let rf := (r0 : ℚ) / 65535
    let gf := (g0 : ℚ) / 65535
    let bf := (b0 : ℚ) / 65535
    let af := (a : ℚ) / 65535
    let rf := rf / af
    let gf := gf / af
    let bf := bf / af
    let cMin := min (min rf gf) bf
    let cMax := max (max rf gf) bf
    let delta := cMax - cMin
    let vf := cMax
    let sf := if cMax > 0 then delta / cMax else 0
    if delta = 0 then ⟨0, 0, vf, af⟩
    else
      let hf :=
        if cMax = rf then (gf - bf) / delta + 0
        else if cMax = gf then (bf - rf) / delta + 2
        else if cMax = bf then (rf - gf) / delta + 4
        else 0
      let hf := goMod (hf * 60 + 360) 360
      ⟨hf, sf, vf, af⟩

/-- The clamp01 closure inside NHSVAF64.RGBA: math.Max(0, math.Min(1, x)). -/
def clamp01 (x : ℚ) : ℚ := max 0 (min 1 x)

/-- The wrap360 closure inside NHSVAF64.RGBA:
math.Mod(math.Mod(x, 360)+360, 360). -/
def wrap360 (x : ℚ) : ℚ := goMod (goMod x 360 + 360) 360

/-- NHSVAF64.RGBA from src/unnamed/part_002: normalize all four channels,
then either the grayscale fast path or the general helper. -/
def NHSVAF64.RGBA (c : NHSVAF64) : Option (ℕ × ℕ × ℕ × ℕ) :=
  let hf := wrap360 c.H
  let sf := clamp01 c.S
  let vf := clamp01 c.V
  let af := clamp01 c.A
  if sf = 0 then
    let v16pm := ratToU32 (vf * af * 65535)
    some (v16pm, v16pm, v16pm, ratToU32 (af * 65535))
  else
    nhsvaFloat64ToRGBA hf sf vf af

/-- color.Gray.RGBA from Go's standard image/color package (an external
collaborator of the conversion core): y |= y << 8, full alpha. -/
def grayRGBA (v : ℕ) : ℕ × ℕ × ℕ × ℕ :=
  (v ||| (v <<< 8), v ||| (v <<< 8), v ||| (v <<< 8), 65535)

/-- color.RGBA.RGBA from Go's standard image/color package: each 8-bit
premultiplied channel c becomes c | c<<8. -/
def rgba8 (r g b a : ℕ) : ℕ × ℕ × ℕ × ℕ :=
  (r ||| (r <<< 8), g ||| (g <<< 8), b ||| (b <<< 8), a ||| (a <<< 8))

/-- NHSVAModel.Convert applied to an 8-bit RGBA color (the generic path of
nhsvaModel fed with the quadruple color.RGBA{r,g,b,a}.RGBA() yields). -/
def convertRGBA8 (r g b a : ℕ) : NHSVA :=
  nhsvaModelRGBA (rgba8 r g b a).1 (rgba8 r g b a).2.1 (rgba8 r g b a).2.2.1
    (rgba8 r g b a).2.2.2

/-- NHSVAModel.Convert applied to the gray color color.Gray{v}. -/
def convertGray (v : ℕ) : NHSVA :=
  nhsvaModelRGBA (grayRGBA v).1 (grayRGBA v).2.1 (grayRGBA v).2.2.1
    (grayRGBA v).2.2.2

/-- A color.Color input to the conversion models, as the models' type
switches see it: one of this package's three concrete HSV color types
(recognized by the `c.(T)` assertions and returned through the identity
fast paths), or any other color, given by the quadruple its RGBA() method
yields. -/
inductive GoColor where
  | nhsva : NHSVA → GoColor
  | nhsva64 : NHSVA64 → GoColor
  | nhsvaF64 : NHSVAF64 → GoColor
  | other : ℕ → ℕ → ℕ → ℕ → GoColor
deriving DecidableEq

/-- The RGBA() method of a GoColor: the three package types use their own
RGBA methods (Option-valued, none embedding a panic); an external color
supplies its quadruple directly. -/
def GoColor.rgba : GoColor → Option (ℕ × ℕ × ℕ × ℕ)
  | .nhsva c => NHSVA.RGBA c
  | .nhsva64 c => NHSVA64.RGBA c
  | .nhsvaF64 c => NHSVAF64.RGBA c
  | .other r g b a => some (r, g, b, a)

/-- nhsva64Model from src/unnamed/part_002 with its dispatch: an input that
is already NHSVA64 is returned unchanged (identity fast path, before the
alpha test); every other input goes through the generic path on its RGBA()
quadruple. -/
def nhsva64Model : GoColor → Option NHSVA64
  | .nhsva64 c => some c
  | c => (GoColor.rgba c).map fun t => nhsva64ModelRGBA t.1 t.2.1 t.2.2.1 t.2.2.2

/-- nhsvaModel from src/unnamed/part_002 with its dispatch: an input that is
already NHSVA is returned unchanged; every other input is converted by
nhsva64Model (whose own NHSVA64 identity fast path therefore applies) and
each channel is then scaled down to 8 bits. -/
def nhsvaModel : GoColor → Option NHSVA
  | .nhsva c => some c
  | c => (nhsva64Model c).map fun c64 =>
      ⟨nhsvaScale c64.H, nhsvaScale c64.S, nhsvaScale c64.V, nhsvaScale c64.A⟩

/-- nhsvaF64Model from src/unnamed/part_002 with its dispatch: an input that
is already NHSVAF64 is returned unchanged; every other input goes through
the generic path on its RGBA() quadruple. -/
def nhsvaF64Model : GoColor → Option NHSVAF64
  | .nhsvaF64 c => some c
  | c => (GoColor.rgba c).map fun t => nhsvaF64ModelRGBA t.1 t.2.1 t.2.2.1 t.2.2.2

/-! ### image geometry: Go's image.Point / image.Rectangle (external
collaborators from the standard library, used by src/image.go) -/

/-- image.Point. -/
structure Point where
  x : ℤ
  y : ℤ
deriving DecidableEq, Repr

/-- image.Rectangle: half-open min/max corners. -/
structure Rectangle where
  min : Point
  max : Point
deriving DecidableEq, Repr

/-- Point.In from Go's image package. -/
def Point.In (p : Point) (r : Rectangle) : Bool :=
  r.min.x ≤ p.x && p.x < r.max.x && r.min.y ≤ p.y && p.y < r.max.y

/-- Rectangle.Empty from Go's image package. -/
def Rectangle.Empty (r : Rectangle) : Bool :=
  r.max.x ≤ r.min.x || r.max.y ≤ r.min.y

/-- Rectangle.Dx. -/
def Rectangle.Dx (r : Rectangle) : ℤ := r.max.x - r.min.x

/-- Rectangle.Dy. -/
def Rectangle.Dy (r : Rectangle) : ℤ := r.max.y - r.min.y

/-- The zero rectangle, Go's image.ZR / Rectangle{}. -/
def zeroRect : Rectangle := ⟨⟨0, 0⟩, ⟨0, 0⟩⟩

/-- Rectangle.Intersect from Go's image package: clip each bound, and return
the zero rectangle when the clipped rectangle is empty. -/
def Rectangle.Intersect (r s : Rectangle) : Rectangle :=
  let t : Rectangle := ⟨⟨Max.max r.min.x s.min.x, Max.max r.min.y s.min.y⟩,
    ⟨Min.min r.max.x s.max.x, Min.min r.max.y s.max.y⟩⟩
  if t.Empty then zeroRect else t

/-! ### image buffers: src/image.go

The three Go image structs NHSVA, NHSVA64 and NHSVAF64 have the same header
shape {Pix, Stride, Rect}; Pix is a slice of a backing array.  The header is
embedded once as Img, with the slice replaced by an (off, len) view; the
backing store (a List ℕ of bytes for the two integer types, a List ℚ of
float64 samples for NHSVAF64) is passed to each operation separately, so
aliasing between a parent image and its sub-images is the sharing of one
store. -/

/-- An image header: the view Pix[off, off+len) into the backing store,
the row stride, and the bounding rectangle. -/
structure Img where
  off : ℕ
  len : ℕ
  stride : ℤ
  rect : Rectangle
deriving DecidableEq, Repr

/-- The zero-valued header, Go's &NHSVA{} (and &NHSVA64{}, &NHSVAF64{}):
nil Pix, zero stride, zero rectangle. -/
def zeroImg : Img := ⟨0, 0, 0, zeroRect⟩

/-- PixOffset from src/image.go, for pixel size bpp bytes (4 for NHSVA and
NHSVAF64, 8 for NHSVA64): (y-Rect.Min.Y)*Stride + (x-Rect.Min.X)*bpp. -/
def pixOffset (bpp : ℤ) (p : Img) (x y : ℤ) : ℤ :=
  (y - p.rect.min.y) * p.stride + (x - p.rect.min.x) * bpp

/-- Well-formedness of a header over a store of length memLen: the view lies
inside the store, and every in-rectangle pixel's samples lie inside the
view.  (Quantified over the rectangle's width and height so that it is
decidable at concrete inputs.) -/
def WF (bpp : ℤ) (memLen : ℕ) (p : Img) : Prop :=
  p.off + p.len ≤ memLen ∧
  ∀ j < p.rect.Dy.toNat, ∀ k < p.rect.Dx.toNat,
    0 ≤ pixOffset bpp p (p.rect.min.x + k) (p.rect.min.y + j) ∧
    pixOffset bpp p (p.rect.min.x + k) (p.rect.min.y + j) + bpp ≤ (p.len : ℤ)

instance (bpp : ℤ) (memLen : ℕ) (p : Img) : Decidable (WF bpp memLen p) := by
  unfold WF; infer_instance

/-- NHSVA.NHSVAAt from src/image.go. -/
def NHSVAAt (mem : List ℕ) (p : Img) (x y : ℤ) : NHSVA :=
  if (Point.mk x y).In p.rect then
    let i := ((p.off : ℤ) + pixOffset 4 p x y).toNat
    ⟨mem.getD i 0, mem.getD (i + 1) 0, mem.getD (i + 2) 0, mem.getD (i + 3) 0⟩
  else ⟨0, 0, 0, 0⟩

/-- NHSVA.SetNHSVA from src/image.go: the new contents of the backing
store. -/
def SetNHSVA (mem : List ℕ) (p : Img) (x y : ℤ) (c : NHSVA) : List ℕ :=
  if (Point.mk x y).In p.rect then
    let i := ((p.off : ℤ) + pixOffset 4 p x y).toNat
    ((((mem.set i c.H).set (i + 1) c.S).set (i + 2) c.V).set (i + 3) c.A)
  else mem

/-- NHSVA.Set from src/image.go, for a generic (non-NHSVA) color given by
its RGBA() quadruple: convert through the color model, then store. -/
def SetGenericNHSVA (mem : List ℕ) (p : Img) (x y : ℤ) (r g b a : ℕ) :
    List ℕ :=
  if (Point.mk x y).In p.rect then
    let i := ((p.off : ℤ) + pixOffset 4 p x y).toNat
    let c1 := nhsvaModelRGBA r g b a
    ((((mem.set i c1.H).set (i + 1) c1.S).set (i + 2) c1.V).set (i + 3) c1.A)
  else mem

/-- NHSVA64.NHSVA64At from src/image.go: big-endian byte pairs,
uint16(s[k])<<8 | uint16(s[k+1]). -/
def NHSVA64At (mem : List ℕ) (p : Img) (x y : ℤ) : NHSVA64 :=
  if (Point.mk x y).In p.rect then
    let i := ((p.off : ℤ) + pixOffset 8 p x y).toNat
    ⟨(mem.getD i 0) <<< 8 ||| mem.getD (i + 1) 0,
      (mem.getD (i + 2) 0) <<< 8 ||| mem.getD (i + 3) 0,
      (mem.getD (i + 4) 0) <<< 8 ||| mem.getD (i + 5) 0,
      (mem.getD (i + 6) 0) <<< 8 ||| mem.getD (i + 7) 0⟩
  else ⟨0, 0, 0, 0⟩

/-- NHSVA64.SetNHSVA64 from src/image.go: uint8(c.X >> 8) is
(c.X >>> 8) % 256 and uint8(c.X) is c.X % 256. -/
def SetNHSVA64 (mem : List ℕ) (p : Img) (x y : ℤ) (c : NHSVA64) : List ℕ :=
  if (Point.mk x y).In p.rect then
    let i := ((p.off : ℤ) + pixOffset 8 p x y).toNat
    ((((((((mem.set i ((c.H >>> 8) % 256)).set (i + 1) (c.H % 256)).set
      (i + 2) ((c.S >>> 8) % 256)).set (i + 3) (c.S % 256)).set
      (i + 4) ((c.V >>> 8) % 256)).set (i + 5) (c.V % 256)).set
      (i + 6) ((c.A >>> 8) % 256)).set (i + 7) (c.A % 256))
  else mem

/-- NHSVA64.Set from src/image.go, for a generic color given by its RGBA()
quadruple. -/
def SetGenericNHSVA64 (mem : List ℕ) (p : Img) (x y : ℤ) (r g b a : ℕ) :
    List ℕ :=
  if (Point.mk x y).In p.rect then
    let i := ((p.off : ℤ) + pixOffset 8 p x y).toNat
    let c1 := nhsva64ModelRGBA r g b a
    ((((((((mem.set i ((c1.H >>> 8) % 256)).set (i + 1) (c1.H % 256)).set
      (i + 2) ((c1.S >>> 8) % 256)).set (i + 3) (c1.S % 256)).set
      (i + 4) ((c1.V >>> 8) % 256)).set (i + 5) (c1.V % 256)).set
      (i + 6) ((c1.A >>> 8) % 256)).set (i + 7) (c1.A % 256))
  else mem

/-- NHSVAF64.NHSVAF64At from src/image.go; the store holds float64 samples,
embedded as ℚ. -/
def NHSVAF64At (mem : List ℚ) (p : Img) (x y : ℤ) : NHSVAF64 :=
  if (Point.mk x y).In p.rect then
    let i := ((p.off : ℤ) + pixOffset 4 p x y).toNat
    ⟨mem.getD i 0, mem.getD (i + 1) 0, mem.getD (i + 2) 0, mem.getD (i + 3) 0⟩
  else ⟨0, 0, 0, 0⟩

/-- NHSVAF64.SetNHSVAF64 from src/image.go. -/
def SetNHSVAF64 (mem : List ℚ) (p : Img) (x y : ℤ) (c : NHSVAF64) : List ℚ :=
  if (Point.mk x y).In p.rect then
    let i := ((p.off : ℤ) + pixOffset 4 p x y).toNat
    ((((mem.set i c.H).set (i + 1) c.S).set (i + 2) c.V).set (i + 3) c.A)
  else mem

/-- NHSVAF64.Set from src/image.go, for a generic color given by its RGBA()
quadruple. -/
def SetGenericNHSVAF64 (mem : List ℚ) (p : Img) (x y : ℤ) (r g b a : ℕ) :
    List ℚ :=
  if (Point.mk x y).In p.rect then
    let i := ((p.off : ℤ) + pixOffset 4 p x y).toNat
    let c1 := nhsvaF64ModelRGBA r g b a
    ((((mem.set i c1.H).set (i + 1) c1.S).set (i + 2) c1.V).set (i + 3) c1.A)
  else mem

/-- SubImage from src/image.go, for pixel size bpp: intersect, return the
zero-valued image on an empty intersection, otherwise reslice at the
intersection's origin.  Pix[i:] faults unless 0 ≤ i ≤ len(Pix); the fault
is embedded as none. -/
def subImage (bpp : ℤ) (p : Img) (r : Rectangle) : Option Img :=
  let r2 := r.Intersect p.rect
  if r2.Empty then some zeroImg
  else
    let i := pixOffset bpp p r2.min.x r2.min.y
    if 0 ≤ i ∧ i ≤ (p.len : ℤ) then
      some ⟨p.off + i.toNat, p.len - i.toNat, p.stride, r2⟩
    else none

/-- NHSVA.SubImage from src/image.go. -/
def NHSVASubImage (p : Img) (r : Rectangle) : Option Img := subImage 4 p r

/-- NHSVA64.SubImage from src/image.go. -/
def NHSVA64SubImage (p : Img) (r : Rectangle) : Option Img := subImage 8 p r

/-- NHSVAF64.SubImage from src/image.go. -/
def NHSVAF64SubImage (p : Img) (r : Rectangle) : Option Img := subImage 4 p r

/-- The inner loop of Opaque (src/image.go): for i := i0; i < i1; i += s,
return false as soon as check fails.  s is the per-pixel byte step (4 or 8;
the guard 0 < s only forces termination and holds at every use). -/
def opLoop (check : ℤ → Bool) (s i i1 : ℤ) : Bool :=
  if i < i1 then
    if 0 < s then check i && opLoop check s (i + s) i1 else true
  else true
termination_by (i1 - i).toNat
decreasing_by omega

/-- The outer loop of Opaque (src/image.go): one row per y, advancing i0 and
i1 by the stride. -/
def opRows (check : ℤ → Bool) (s stride y maxY i0 i1 : ℤ) : Bool :=
  if y < maxY then
    opLoop check s i0 i1 && opRows check s stride (y + 1) maxY (i0 + stride) (i1 + stride)
  else true
termination_by (maxY - y).toNat
decreasing_by omega

/-- NHSVA.Opaque from src/image.go: scan the alpha byte (relative index 3,
step 4) of every pixel. -/
def NHSVAOpaque (mem : List ℕ) (p : Img) : Bool :=
  if p.rect.Empty then true
  else
    opRows (fun i => mem.getD ((p.off : ℤ) + i).toNat 0 == 255) 4 p.stride
      p.rect.min.y p.rect.max.y 3 (p.rect.Dx * 4)

/-- NHSVA64.Opaque from src/image.go: scan the two alpha bytes (relative
indices 6 and 7, step 8) of every pixel. -/
def NHSVA64Opaque (mem : List ℕ) (p : Img) : Bool :=
  if p.rect.Empty then true
  else
    opRows
      (fun i => (mem.getD ((p.off : ℤ) + i).toNat 0 == 255) &&
        (mem.getD ((p.off : ℤ) + i + 1).toNat 0 == 255))
      8 p.stride p.rect.min.y p.rect.max.y 6 (p.rect.Dx * 8)

/-- NHSVAF64.Opaque from src/image.go: scan the alpha sample (relative index
3, step 4) of every pixel for the value 1.0. -/
def NHSVAF64Opaque (mem : List ℚ) (p : Img) : Bool :=
  if p.rect.Empty then true
  else
    opRows (fun i => decide (mem.getD ((p.off : ℤ) + i).toNat 0 = 1)) 4 p.stride
      p.rect.min.y p.rect.max.y 3 (p.rect.Dx * 4)

/-- NewNHSVA from src/image.go: a zero-filled buffer, stride 4*Dx; the
returned header views the whole store. -/
def NewNHSVA (r : Rectangle) : Img × List ℕ :=
  (⟨0, (4 * r.Dx * r.Dy).toNat, 4 * r.Dx, r⟩,
    List.replicate (4 * r.Dx * r.Dy).toNat 0)

/-- NewNHSVA64 from src/image.go. -/
def NewNHSVA64 (r : Rectangle) : Img × List ℕ :=
  (⟨0, (8 * r.Dx * r.Dy).toNat, 8 * r.Dx, r⟩,
    List.replicate (8 * r.Dx * r.Dy).toNat 0)

/-- A store of bytes: every sample is in a uint8's range. -/
def ByteStore (mem : List ℕ) : Prop := ∀ b ∈ mem, b < 256

/-! ### Helper lemmas: list stores -/

theorem getD_set_self' {α} (l : List α) (i : ℕ) (a d : α) (h : i < l.length) :
    (l.set i a).getD i d = a := by
  simp [List.getD_eq_getElem?_getD, List.getElem?_set_self, h]

theorem getD_set_ne' {α} (l : List α) (i j : ℕ) (a d : α) (h : i ≠ j) :
    (l.set i a).getD j d = l.getD j d := by
  simp [List.getD_eq_getElem?_getD, List.getElem?_set_ne h]

theorem quadRoundtrip {α} (mem : List α) (i : ℕ) (a b c d e : α)
    (h : i + 4 ≤ mem.length) :
    ((((mem.set i a).set (i + 1) b).set (i + 2) c).set (i + 3) d).getD i e = a ∧
    ((((mem.set i a).set (i + 1) b).set (i + 2) c).set (i + 3) d).getD (i + 1) e = b ∧
    ((((mem.set i a).set (i + 1) b).set (i + 2) c).set (i + 3) d).getD (i + 2) e = c ∧
    ((((mem.set i a).set (i + 1) b).set (i + 2) c).set (i + 3) d).getD (i + 3) e = d := by
  refine ⟨?_, ?_, ?_, ?_⟩
  · rw [getD_set_ne' _ _ _ _ _ (by omega), getD_set_ne' _ _ _ _ _ (by omega),
      getD_set_ne' _ _ _ _ _ (by omega), getD_set_self' _ _ _ _ (by omega)]
  · rw [getD_set_ne' _ _ _ _ _ (by omega), getD_set_ne' _ _ _ _ _ (by omega),
      getD_set_self' _ _ _ _ (by simp; omega)]
  · rw [getD_set_ne' _ _ _ _ _ (by omega),
      getD_set_self' _ _ _ _ (by simp; omega)]
  · rw [getD_set_self' _ _ _ _ (by simp; omega)]

theorem byte_getD (mem : List ℕ) (h : ByteStore mem) (i : ℕ) :
    mem.getD i 0 < 256 := by
  rcases Nat.lt_or_ge i mem.length with hi | hi
  · rw [List.getD_eq_getElem _ _ hi]
    exact h _ (List.getElem_mem hi)
  · rw [List.getD_eq_default _ _ hi]
    omega

/-! ### Helper lemmas: 16-bit big-endian packing -/

theorem pack16 (n : ℕ) (h : n < 65536) :
    ((n >>> 8) % 256) <<< 8 ||| n % 256 = n := by
  have h2 : n % 256 < 2 ^ 8 := by omega
  rw [Nat.shiftLeft_eq, Nat.mul_comm, ← Nat.mul_add_lt_is_or h2,
    Nat.shiftRight_eq_div_pow]
  omega

theorem hiLo65535 (b0 b1 : ℕ) (h0 : b0 < 256) (h1 : b1 < 256) :
    (b0 <<< 8 ||| b1 = 65535) ↔ (b0 = 255 ∧ b1 = 255) := by
  have h2 : b1 < 2 ^ 8 := by omega
  rw [Nat.shiftLeft_eq, Nat.mul_comm, ← Nat.mul_add_lt_is_or h2]
  omega

/-! ### Helper lemmas: rectangles -/

theorem In_Intersect {q : Point} {r s : Rectangle}
    (h : q.In (r.Intersect s) = true) : q.In r = true ∧ q.In s = true := by
  simp only [Rectangle.Intersect, Point.In, Rectangle.Empty, zeroRect] at *
  split_ifs at h with he
  · simp at h; omega
  · simp at he h ⊢; omega

theorem In_nonempty {q : Point} {t : Rectangle} (h : q.In t = true) :
    t.Empty = false := by
  simp only [Point.In, Bool.and_eq_true, decide_eq_true_eq] at h
  simp only [Rectangle.Empty, Bool.or_eq_false_iff, decide_eq_false_iff_not]
  omega

theorem In_min_of_nonempty (t : Rectangle) (h : t.Empty = false) :
    (Point.mk t.min.x t.min.y).In t = true := by
  simp only [Rectangle.Empty, Bool.or_eq_false_iff, decide_eq_false_iff_not] at h
  simp only [Point.In, Bool.and_eq_true, decide_eq_true_eq]
  omega

theorem Intersect_empty_eq_zero (r s : Rectangle)
    (h : (r.Intersect s).Empty = true) : r.Intersect s = zeroRect := by
  rw [Rectangle.Intersect] at h ⊢
  split_ifs at h ⊢ with ht
  · rfl
  · exact absurd h ht

/-! ### Helper lemmas: well-formed image headers -/

theorem WF_pix {bpp : ℤ} {memLen : ℕ} {p : Img} (hwf : WF bpp memLen p)
    {x y : ℤ} (hin : (Point.mk x y).In p.rect = true) :
    0 ≤ pixOffset bpp p x y ∧ pixOffset bpp p x y + bpp ≤ (p.len : ℤ) := by
  obtain ⟨hle, hq⟩ := hwf
  simp only [Point.In, Bool.and_eq_true, decide_eq_true_eq] at hin
  obtain ⟨⟨⟨h1, h2⟩, h3⟩, h4⟩ := hin
  have := hq (y - p.rect.min.y).toNat (by simp only [Rectangle.Dy]; omega)
    (x - p.rect.min.x).toNat (by simp only [Rectangle.Dx]; omega)
  rw [show p.rect.min.x + ((x - p.rect.min.x).toNat : ℤ) = x by omega,
    show p.rect.min.y + ((y - p.rect.min.y).toNat : ℤ) = y by omega] at this
  exact this

theorem subImage_inv (bpp : ℤ) (p : Img) (r : Rectangle) (s : Img)
    (hs : subImage bpp p r = some s)
    (hne : (r.Intersect p.rect).Empty = false) :
    s.rect = r.Intersect p.rect ∧ s.stride = p.stride ∧
    (s.off : ℤ) = (p.off : ℤ) +
      pixOffset bpp p (r.Intersect p.rect).min.x (r.Intersect p.rect).min.y ∧
    0 ≤ pixOffset bpp p (r.Intersect p.rect).min.x (r.Intersect p.rect).min.y := by
  simp only [subImage, hne] at hs
  rw [if_neg (by simp [hne])] at hs
  split_ifs at hs with hcond
  obtain ⟨hi0, hile⟩ := hcond
  cases hs
  refine ⟨rfl, rfl, ?_, hi0⟩
  dsimp only
  omega

/-! ### Helper lemmas: the Opaque scan loops -/

theorem opLoop4_aux (check : ℤ → Bool) (i1 : ℤ) :
    ∀ (n : ℕ) (i0 : ℤ), (i1 - i0).toNat = n →
    (opLoop check 4 i0 i1 = true ↔
      ∀ k : ℕ, i0 + 4 * k < i1 → check (i0 + 4 * k) = true) := by
  intro n
  induction n using Nat.strong_induction_on with
  | _ n ih =>
    intro i0 hn
    by_cases hlt : i0 < i1
    · rw [opLoop, if_pos hlt, if_pos (by norm_num), Bool.and_eq_true,
        ih (i1 - (i0 + 4)).toNat (by omega) (i0 + 4) rfl]
      constructor
      · rintro ⟨h0, hrest⟩ k hk
        cases k with
        | zero => simpa using h0
        | succ k =>
          have harg : i0 + 4 * ((k + 1 : ℕ) : ℤ) = i0 + 4 + 4 * (k : ℤ) := by
            push_cast; ring
          rw [harg]
          exact hrest k (by push_cast at hk ⊢; omega)
      · intro h
        refine ⟨by simpa using h 0 (by simpa using hlt), ?_⟩
        intro k hk
        have harg : i0 + 4 + 4 * (k : ℤ) = i0 + 4 * ((k + 1 : ℕ) : ℤ) := by
          push_cast; ring
        rw [harg]
        exact h (k + 1) (by push_cast at hk ⊢; omega)
    · rw [opLoop, if_neg hlt]
      constructor
      · intro _ k hk
        exfalso
        omega
      · intro _
        rfl

theorem opLoop4_iff (check : ℤ → Bool) (i0 i1 : ℤ) :
    opLoop check 4 i0 i1 = true ↔
      ∀ k : ℕ, i0 + 4 * k < i1 → check (i0 + 4 * k) = true :=
  opLoop4_aux check i1 (i1 - i0).toNat i0 rfl

theorem opLoop8_aux (check : ℤ → Bool) (i1 : ℤ) :
    ∀ (n : ℕ) (i0 : ℤ), (i1 - i0).toNat = n →
    (opLoop check 8 i0 i1 = true ↔
      ∀ k : ℕ, i0 + 8 * k < i1 → check (i0 + 8 * k) = true) := by
  intro n
  induction n using Nat.strong_induction_on with
  | _ n ih =>
    intro i0 hn
    by_cases hlt : i0 < i1
    · rw [opLoop, if_pos hlt, if_pos (by norm_num), Bool.and_eq_true,
        ih (i1 - (i0 + 8)).toNat (by omega) (i0 + 8) rfl]
      constructor
      · rintro ⟨h0, hrest⟩ k hk
        cases k with
        | zero => simpa using h0
        | succ k =>
          have harg : i0 + 8 * ((k + 1 : ℕ) : ℤ) = i0 + 8 + 8 * (k : ℤ) := by
            push_cast; ring
          rw [harg]
          exact hrest k (by push_cast at hk ⊢; omega)
      · intro h
        refine ⟨by simpa using h 0 (by simpa using hlt), ?_⟩
        intro k hk
        have harg : i0 + 8 + 8 * (k : ℤ) = i0 + 8 * ((k + 1 : ℕ) : ℤ) := by
          push_cast; ring
        rw [harg]
        exact h (k + 1) (by push_cast at hk ⊢; omega)
    · rw [opLoop, if_neg hlt]
      constructor
      · intro _ k hk
        exfalso
        omega
      · intro _
        rfl

theorem opLoop8_iff (check : ℤ → Bool) (i0 i1 : ℤ) :
    opLoop check 8 i0 i1 = true ↔
      ∀ k : ℕ, i0 + 8 * k < i1 → check (i0 + 8 * k) = true :=
  opLoop8_aux check i1 (i1 - i0).toNat i0 rfl

theorem opRows_aux (check : ℤ → Bool) (s stride maxY : ℤ) :
    ∀ (n : ℕ) (y0 i0 i1 : ℤ), (maxY - y0).toNat = n →
    (opRows check s stride y0 maxY i0 i1 = true ↔
      ∀ j : ℕ, y0 + j < maxY →
        opLoop check s (i0 + stride * j) (i1 + stride * j) = true) := by
  intro n
  induction n with
  | zero =>
    intro y0 i0 i1 hn
    rw [opRows, if_neg (by omega)]
    constructor
    · intro _ j hj
      exfalso
      omega
    · intro _
      rfl
  | succ n ih =>
    intro y0 i0 i1 hn
    have hlt : y0 < maxY := by omega
    rw [opRows, if_pos hlt, Bool.and_eq_true,
      ih (y0 + 1) (i0 + stride) (i1 + stride) (by omega)]
    constructor
    · rintro ⟨h0, hrest⟩ j hj
      cases j with
      | zero => simpa using h0
      | succ j =>
        have ha : i0 + stride * ((j + 1 : ℕ) : ℤ) = i0 + stride + stride * (j : ℤ) := by
          push_cast; ring
        have hb : i1 + stride * ((j + 1 : ℕ) : ℤ) = i1 + stride + stride * (j : ℤ) := by
          push_cast; ring
        rw [ha, hb]
        exact hrest j (by push_cast at hj ⊢; omega)
    · intro h
      refine ⟨by simpa using h 0 (by simpa using hlt), ?_⟩
      intro j hj
      have ha : i0 + stride + stride * (j : ℤ) = i0 + stride * ((j + 1 : ℕ) : ℤ) := by
        push_cast; ring
      have hb : i1 + stride + stride * (j : ℤ) = i1 + stride * ((j + 1 : ℕ) : ℤ) := by
        push_cast; ring
      rw [ha, hb]
      exact h (j + 1) (by push_cast at hj ⊢; omega)

theorem opRows_iff (check : ℤ → Bool) (s stride y0 maxY i0 i1 : ℤ) :
    opRows check s stride y0 maxY i0 i1 = true ↔
      ∀ j : ℕ, y0 + j < maxY →
        opLoop check s (i0 + stride * j) (i1 + stride * j) = true :=
  opRows_aux check s stride maxY (maxY - y0).toNat y0 i0 i1 rfl

/-- Read-back of the eight bytes written by an NHSVA64 pixel store. -/
theorem octRoundtrip {α} (mem : List α) (i : ℕ) (a b c d e f g h z : α)
    (hlen : i + 8 ≤ mem.length) :
    let m := ((((((((mem.set i a).set (i + 1) b).set (i + 2) c).set (i + 3) d).set
      (i + 4) e).set (i + 5) f).set (i + 6) g).set (i + 7) h)
    m.getD i z = a ∧ m.getD (i + 1) z = b ∧ m.getD (i + 2) z = c ∧
    m.getD (i + 3) z = d ∧ m.getD (i + 4) z = e ∧ m.getD (i + 5) z = f ∧
    m.getD (i + 6) z = g ∧ m.getD (i + 7) z = h := by
  refine ⟨?_, ?_, ?_, ?_, ?_, ?_, ?_, ?_⟩
  · rw [getD_set_ne' _ _ _ _ _ (by omega), getD_set_ne' _ _ _ _ _ (by omega),
      getD_set_ne' _ _ _ _ _ (by omega), getD_set_ne' _ _ _ _ _ (by omega),
      getD_set_ne' _ _ _ _ _ (by omega), getD_set_ne' _ _ _ _ _ (by omega),
      getD_set_ne' _ _ _ _ _ (by omega), getD_set_self' _ _ _ _ (by omega)]
  · rw [getD_set_ne' _ _ _ _ _ (by omega), getD_set_ne' _ _ _ _ _ (by omega),
      getD_set_ne' _ _ _ _ _ (by omega), getD_set_ne' _ _ _ _ _ (by omega),
      getD_set_ne' _ _ _ _ _ (by omega), getD_set_ne' _ _ _ _ _ (by omega),
      getD_set_self' _ _ _ _ (by simp; omega)]
  · rw [getD_set_ne' _ _ _ _ _ (by omega), getD_set_ne' _ _ _ _ _ (by omega),
      getD_set_ne' _ _ _ _ _ (by omega), getD_set_ne' _ _ _ _ _ (by omega),
      getD_set_ne' _ _ _ _ _ (by omega), getD_set_self' _ _ _ _ (by simp; omega)]
  · rw [getD_set_ne' _ _ _ _ _ (by omega), getD_set_ne' _ _ _ _ _ (by omega),
      getD_set_ne' _ _ _ _ _ (by omega), getD_set_ne' _ _ _ _ _ (by omega),
      getD_set_self' _ _ _ _ (by simp; omega)]
  · rw [getD_set_ne' _ _ _ _ _ (by omega), getD_set_ne' _ _ _ _ _ (by omega),
      getD_set_ne' _ _ _ _ _ (by omega), getD_set_self' _ _ _ _ (by simp; omega)]
  · rw [getD_set_ne' _ _ _ _ _ (by omega), getD_set_ne' _ _ _ _ _ (by omega),
      getD_set_self' _ _ _ _ (by simp; omega)]
  · rw [getD_set_ne' _ _ _ _ _ (by omega), getD_set_self' _ _ _ _ (by simp; omega)]
  · rw [getD_set_self' _ _ _ _ (by simp; omega)]

/-! ### Helper lemmas: a typed store through one header read back through an
aliasing header (same absolute sample address) -/

theorem NHSVAAt_SetNHSVA_alias (mem : List ℕ) (p s : Img) (x y : ℤ) (c : NHSVA)
    (hin_p : (Point.mk x y).In p.rect = true)
    (hin_s : (Point.mk x y).In s.rect = true)
    (haddr : (s.off : ℤ) + pixOffset 4 s x y = (p.off : ℤ) + pixOffset 4 p x y)
    (h0 : 0 ≤ (p.off : ℤ) + pixOffset 4 p x y)
    (h4 : (p.off : ℤ) + pixOffset 4 p x y + 4 ≤ (mem.length : ℤ)) :
    NHSVAAt (SetNHSVA mem s x y c) p x y = c := by
  simp only [NHSVAAt, SetNHSVA, hin_p, hin_s, if_true]
  rw [haddr]
  obtain ⟨e1, e2, e3, e4⟩ := quadRoundtrip mem ((p.off : ℤ) + pixOffset 4 p x y).toNat
    c.H c.S c.V c.A 0 (by omega)
  rw [e1, e2, e3, e4]

theorem NHSVAF64At_SetNHSVAF64_alias (mem : List ℚ) (p s : Img) (x y : ℤ)
    (c : NHSVAF64)
    (hin_p : (Point.mk x y).In p.rect = true)
    (hin_s : (Point.mk x y).In s.rect = true)
    (haddr : (s.off : ℤ) + pixOffset 4 s x y = (p.off : ℤ) + pixOffset 4 p x y)
    (h0 : 0 ≤ (p.off : ℤ) + pixOffset 4 p x y)
    (h4 : (p.off : ℤ) + pixOffset 4 p x y + 4 ≤ (mem.length : ℤ)) :
    NHSVAF64At (SetNHSVAF64 mem s x y c) p x y = c := by
  simp only [NHSVAF64At, SetNHSVAF64, hin_p, hin_s, if_true]
  rw [haddr]
  obtain ⟨e1, e2, e3, e4⟩ := quadRoundtrip mem ((p.off : ℤ) + pixOffset 4 p x y).toNat
    c.H c.S c.V c.A 0 (by omega)
  rw [e1, e2, e3, e4]

theorem NHSVA64At_SetNHSVA64_alias (mem : List ℕ) (p s : Img) (x y : ℤ)
    (c : NHSVA64)
    (hin_p : (Point.mk x y).In p.rect = true)
    (hin_s : (Point.mk x y).In s.rect = true)
    (haddr : (s.off : ℤ) + pixOffset 8 s x y = (p.off : ℤ) + pixOffset 8 p x y)
    (h0 : 0 ≤ (p.off : ℤ) + pixOffset 8 p x y)
    (h8 : (p.off : ℤ) + pixOffset 8 p x y + 8 ≤ (mem.length : ℤ))
    (hH : c.H < 65536) (hS : c.S < 65536) (hV : c.V < 65536) (hA : c.A < 65536) :
    NHSVA64At (SetNHSVA64 mem s x y c) p x y = c := by
  simp only [NHSVA64At, SetNHSVA64, hin_p, hin_s, if_true]
  rw [haddr]
  obtain ⟨e1, e2, e3, e4, e5, e6, e7, e8⟩ := octRoundtrip mem
    ((p.off : ℤ) + pixOffset 8 p x y).toNat ((c.H >>> 8) % 256) (c.H % 256)
    ((c.S >>> 8) % 256) (c.S % 256) ((c.V >>> 8) % 256) (c.V % 256)
    ((c.A >>> 8) % 256) (c.A % 256) 0 (by omega)
  rw [e1, e2, e3, e4, e5, e6, e7, e8, pack16 _ hH, pack16 _ hS, pack16 _ hV,
    pack16 _ hA]

/-! ### Helper lemmas: each Opaque scan is the all-pixels alpha test -/

theorem NHSVAOpaque_iff (mem : List ℕ) (p : Img) (hwf : WF 4 mem.length p) :
    NHSVAOpaque mem p = true ↔
      ∀ x y : ℤ, (Point.mk x y).In p.rect = true →
        (NHSVAAt mem p x y).A = 255 := by
  by_cases hemp : p.rect.Empty = true
  · rw [NHSVAOpaque, if_pos hemp]
    simp only [true_iff]
    intro x y hin
    rw [In_nonempty hin] at hemp
    exact absurd hemp (by simp)
  · rw [NHSVAOpaque, if_neg hemp, opRows_iff]
    simp only [opLoop4_iff]
    constructor
    · intro h x y hin
      have hb := hin
      simp only [Point.In, Bool.and_eq_true, decide_eq_true_eq] at hb
      obtain ⟨⟨⟨h1, h2⟩, h3⟩, h4⟩ := hb
      obtain ⟨hpo0, hpo4⟩ := WF_pix hwf hin
      obtain ⟨hlen, -⟩ := hwf
      have hcall := h (y - p.rect.min.y).toNat (by omega)
        (x - p.rect.min.x).toNat
        (by
          have hc : p.stride * ((y - p.rect.min.y).toNat : ℤ) =
              (y - p.rect.min.y) * p.stride := by
            rw [show (((y - p.rect.min.y).toNat : ℤ)) = y - p.rect.min.y by omega]
            ring
          simp only [Rectangle.Dx]
          omega)
      simp only [beq_iff_eq] at hcall
      rw [NHSVAAt, if_pos hin]
      show mem.getD (((p.off : ℤ) + pixOffset 4 p x y).toNat + 3) 0 = 255
      have hc1 : p.stride * ((y - p.rect.min.y).toNat : ℤ) =
          (y - p.rect.min.y) * p.stride := by
        rw [show (((y - p.rect.min.y).toNat : ℤ)) = y - p.rect.min.y by omega]
        ring
      have hidx : ((p.off : ℤ) +
          (3 + p.stride * ((y - p.rect.min.y).toNat : ℤ) +
            4 * ((x - p.rect.min.x).toNat : ℤ))).toNat =
          ((p.off : ℤ) + pixOffset 4 p x y).toNat + 3 := by
        simp only [pixOffset] at hpo0 hpo4 ⊢
        omega
      rw [hidx] at hcall
      exact hcall
    · intro h j hj k hk
      have hin : (Point.mk (p.rect.min.x + k) (p.rect.min.y + j)).In p.rect = true := by
        simp only [Point.In, Bool.and_eq_true, decide_eq_true_eq]
        simp only [Rectangle.Dx] at hk
        refine ⟨⟨⟨by omega, by omega⟩, by omega⟩, by omega⟩
      have hA := h (p.rect.min.x + k) (p.rect.min.y + j) hin
      obtain ⟨hpo0, hpo4⟩ := WF_pix hwf hin
      rw [NHSVAAt, if_pos hin] at hA
      simp only [beq_iff_eq]
      have hc1 : (p.rect.min.y + (j : ℤ) - p.rect.min.y) * p.stride =
          p.stride * (j : ℤ) := by ring
      have hidx : ((p.off : ℤ) +
          (3 + p.stride * (j : ℤ) + 4 * (k : ℤ))).toNat =
          ((p.off : ℤ) + pixOffset 4 p (p.rect.min.x + k) (p.rect.min.y + j)).toNat + 3 := by
        simp only [pixOffset] at hpo0 hpo4 ⊢
        omega
      rw [hidx]
      exact hA

theorem NHSVAF64Opaque_iff (mem : List ℚ) (p : Img) (hwf : WF 4 mem.length p) :
    NHSVAF64Opaque mem p = true ↔
      ∀ x y : ℤ, (Point.mk x y).In p.rect = true →
        (NHSVAF64At mem p x y).A = 1 := by
  by_cases hemp : p.rect.Empty = true
  · rw [NHSVAF64Opaque, if_pos hemp]
    simp only [true_iff]
    intro x y hin
    rw [In_nonempty hin] at hemp
    exact absurd hemp (by simp)
  · rw [NHSVAF64Opaque, if_neg hemp, opRows_iff]
    simp only [opLoop4_iff]
    constructor
    · intro h x y hin
      have hb := hin
      simp only [Point.In, Bool.and_eq_true, decide_eq_true_eq] at hb
      obtain ⟨⟨⟨h1, h2⟩, h3⟩, h4⟩ := hb
      obtain ⟨hpo0, hpo4⟩ := WF_pix hwf hin
      obtain ⟨hlen, -⟩ := hwf
      have hcall := h (y - p.rect.min.y).toNat (by omega)
        (x - p.rect.min.x).toNat
        (by
          have hc : p.stride * ((y - p.rect.min.y).toNat : ℤ) =
              (y - p.rect.min.y) * p.stride := by
            rw [show (((y - p.rect.min.y).toNat : ℤ)) = y - p.rect.min.y by omega]
            ring
          simp only [Rectangle.Dx]
          omega)
      simp only [decide_eq_true_eq] at hcall
      rw [NHSVAF64At, if_pos hin]
      show mem.getD (((p.off : ℤ) + pixOffset 4 p x y).toNat + 3) 0 = 1
      have hc1 : p.stride * ((y - p.rect.min.y).toNat : ℤ) =
          (y - p.rect.min.y) * p.stride := by
        rw [show (((y - p.rect.min.y).toNat : ℤ)) = y - p.rect.min.y by omega]
        ring
      have hidx : ((p.off : ℤ) +
          (3 + p.stride * ((y - p.rect.min.y).toNat : ℤ) +
            4 * ((x - p.rect.min.x).toNat : ℤ))).toNat =
          ((p.off : ℤ) + pixOffset 4 p x y).toNat + 3 := by
        simp only [pixOffset] at hpo0 hpo4 ⊢
        omega
      rw [hidx] at hcall
      exact hcall
    · intro h j hj k hk
      have hin : (Point.mk (p.rect.min.x + k) (p.rect.min.y + j)).In p.rect = true := by
        simp only [Point.In, Bool.and_eq_true, decide_eq_true_eq]
        simp only [Rectangle.Dx] at hk
        refine ⟨⟨⟨by omega, by omega⟩, by omega⟩, by omega⟩
      have hA := h (p.rect.min.x + k) (p.rect.min.y + j) hin
      obtain ⟨hpo0, hpo4⟩ := WF_pix hwf hin
      rw [NHSVAF64At, if_pos hin] at hA
      simp only [decide_eq_true_eq]
      have hc1 : (p.rect.min.y + (j : ℤ) - p.rect.min.y) * p.stride =
          p.stride * (j : ℤ) := by ring
      have hidx : ((p.off : ℤ) +
          (3 + p.stride * (j : ℤ) + 4 * (k : ℤ))).toNat =
          ((p.off : ℤ) + pixOffset 4 p (p.rect.min.x + k) (p.rect.min.y + j)).toNat + 3 := by
        simp only [pixOffset] at hpo0 hpo4 ⊢
        omega
      rw [hidx]
      exact hA

theorem NHSVA64Opaque_iff (mem : List ℕ) (p : Img) (hwf : WF 8 mem.length p)
    (hbyte : ByteStore mem) :
    NHSVA64Opaque mem p = true ↔
      ∀ x y : ℤ, (Point.mk x y).In p.rect = true →
        (NHSVA64At mem p x y).A = 65535 := by
  by_cases hemp : p.rect.Empty = true
  · rw [NHSVA64Opaque, if_pos hemp]
    simp only [true_iff]
    intro x y hin
    rw [In_nonempty hin] at hemp
    exact absurd hemp (by simp)
  · rw [NHSVA64Opaque, if_neg hemp, opRows_iff]
    simp only [opLoop8_iff]
    constructor
    · intro h x y hin
      have hb := hin
      simp only [Point.In, Bool.and_eq_true, decide_eq_true_eq] at hb
      obtain ⟨⟨⟨h1, h2⟩, h3⟩, h4⟩ := hb
      obtain ⟨hpo0, hpo8⟩ := WF_pix hwf hin
      obtain ⟨hlen, -⟩ := hwf
      have hcall := h (y - p.rect.min.y).toNat (by omega)
        (x - p.rect.min.x).toNat
        (by
          have hc : p.stride * ((y - p.rect.min.y).toNat : ℤ) =
              (y - p.rect.min.y) * p.stride := by
            rw [show (((y - p.rect.min.y).toNat : ℤ)) = y - p.rect.min.y by omega]
            ring
          simp only [Rectangle.Dx]
          omega)
      simp only [Bool.and_eq_true, beq_iff_eq] at hcall
      obtain ⟨hc6, hc7⟩ := hcall
      rw [NHSVA64At, if_pos hin]
      show mem.getD (((p.off : ℤ) + pixOffset 8 p x y).toNat + 6) 0 <<< 8 |||
        mem.getD (((p.off : ℤ) + pixOffset 8 p x y).toNat + 7) 0 = 65535
      rw [hiLo65535 _ _ (byte_getD mem hbyte _) (byte_getD mem hbyte _)]
      have hc1 : p.stride * ((y - p.rect.min.y).toNat : ℤ) =
          (y - p.rect.min.y) * p.stride := by
        rw [show (((y - p.rect.min.y).toNat : ℤ)) = y - p.rect.min.y by omega]
        ring
      have hidx6 : ((p.off : ℤ) +
          (6 + p.stride * ((y - p.rect.min.y).toNat : ℤ) +
            8 * ((x - p.rect.min.x).toNat : ℤ))).toNat =
          ((p.off : ℤ) + pixOffset 8 p x y).toNat + 6 := by
        simp only [pixOffset] at hpo0 hpo8 ⊢
        omega
      have hidx7 : ((p.off : ℤ) +
          (6 + p.stride * ((y - p.rect.min.y).toNat : ℤ) +
            8 * ((x - p.rect.min.x).toNat : ℤ)) + 1).toNat =
          ((p.off : ℤ) + pixOffset 8 p x y).toNat + 7 := by
        simp only [pixOffset] at hpo0 hpo8 ⊢
        omega
      rw [hidx6] at hc6
      rw [hidx7] at hc7
      exact ⟨hc6, hc7⟩
    · intro h j hj k hk
      have hin : (Point.mk (p.rect.min.x + k) (p.rect.min.y + j)).In p.rect = true := by
        simp only [Point.In, Bool.and_eq_true, decide_eq_true_eq]
        simp only [Rectangle.Dx] at hk
        refine ⟨⟨⟨by omega, by omega⟩, by omega⟩, by omega⟩
      have hA := h (p.rect.min.x + k) (p.rect.min.y + j) hin
      obtain ⟨hpo0, hpo8⟩ := WF_pix hwf hin
      rw [NHSVA64At, if_pos hin] at hA
      have hA' := (hiLo65535 _ _ (byte_getD mem hbyte _) (byte_getD mem hbyte _)).mp hA
      obtain ⟨hA6, hA7⟩ := hA'
      simp only [Bool.and_eq_true, beq_iff_eq]
      have hc1 : (p.rect.min.y + (j : ℤ) - p.rect.min.y) * p.stride =
          p.stride * (j : ℤ) := by ring
      have hidx6 : ((p.off : ℤ) +
          (6 + p.stride * (j : ℤ) + 8 * (k : ℤ))).toNat =
          ((p.off : ℤ) + pixOffset 8 p (p.rect.min.x + k) (p.rect.min.y + j)).toNat + 6 := by
        simp only [pixOffset] at hpo0 hpo8 ⊢
        omega
      have hidx7 : ((p.off : ℤ) +
          (6 + p.stride * (j : ℤ) + 8 * (k : ℤ)) + 1).toNat =
          ((p.off : ℤ) + pixOffset 8 p (p.rect.min.x + k) (p.rect.min.y + j)).toNat + 7 := by
        simp only [pixOffset] at hpo0 hpo8 ⊢
        omega
      rw [hidx6, hidx7]
      exact ⟨hA6, hA7⟩

/-! ### Helper lemmas: rational trunc / Go mod / normalization -/

theorem ratTrunc_nonneg_eq (q : ℚ) (h : 0 ≤ q) : ratTrunc q = ⌊q⌋ := by
  simp [ratTrunc, h]

theorem ratTrunc_neg_eq (q : ℚ) (h : q < 0) : ratTrunc q = ⌈q⌉ := by
  simp [ratTrunc, not_le.mpr h]

theorem goMod_nonneg_bounds (x y : ℚ) (hx : 0 ≤ x) (hy : 0 < y) :
    0 ≤ goMod x y ∧ goMod x y < y := by
  have hq : 0 ≤ x / y := by positivity
  rw [goMod, ratTrunc_nonneg_eq _ hq]
  constructor
  · have h1 : (⌊x / y⌋ : ℚ) ≤ x / y := Int.floor_le _
    have := mul_le_mul_of_nonneg_left h1 (le_of_lt hy)
    rw [mul_div_cancel₀ _ (ne_of_gt hy)] at this
    linarith
  · have h2 : x / y < ⌊x / y⌋ + 1 := Int.lt_floor_add_one _
    have := mul_lt_mul_of_pos_left h2 hy
    rw [mul_div_cancel₀ _ (ne_of_gt hy)] at this
    nlinarith [this]

theorem goMod_neg_bounds (x y : ℚ) (hx : x < 0) (hy : 0 < y) :
    -y < goMod x y ∧ goMod x y ≤ 0 := by
  have hq : x / y < 0 := div_neg_of_neg_of_pos hx hy
  rw [goMod, ratTrunc_neg_eq _ hq]
  constructor
  · have h2 : (⌈x / y⌉ : ℚ) < x / y + 1 := Int.ceil_lt_add_one _
    have := mul_lt_mul_of_pos_left h2 hy
    rw [mul_add, mul_div_cancel₀ _ (ne_of_gt hy)] at this
    nlinarith [this]
  · have h1 : x / y ≤ ⌈x / y⌉ := Int.le_ceil _
    have := mul_le_mul_of_nonneg_left h1 (le_of_lt hy)
    rw [mul_div_cancel₀ _ (ne_of_gt hy)] at this
    linarith

theorem wrap360_bounds (x : ℚ) : 0 ≤ wrap360 x ∧ wrap360 x < 360 := by
  rw [wrap360]
  rcases le_or_lt 0 x with hx | hx
  · obtain ⟨h1, h2⟩ := goMod_nonneg_bounds x 360 hx (by norm_num)
    exact goMod_nonneg_bounds _ 360 (by linarith) (by norm_num)
  · obtain ⟨h1, h2⟩ := goMod_neg_bounds x 360 hx (by norm_num)
    exact goMod_nonneg_bounds _ 360 (by linarith) (by norm_num)

theorem goMod_eq_self (x y : ℚ) (h0 : 0 ≤ x) (h1 : x < y) : goMod x y = x := by
  have hy : 0 < y := lt_of_le_of_lt h0 h1
  have hq : 0 ≤ x / y := by positivity
  rw [goMod, ratTrunc_nonneg_eq _ hq]
  have : ⌊x / y⌋ = 0 := Int.floor_eq_zero_iff.mpr ⟨hq, by rw [div_lt_one hy]; exact h1⟩
  rw [this]
  push_cast
  ring

theorem wrap360_of_Ico (x : ℚ) (h0 : 0 ≤ x) (h1 : x < 360) : wrap360 x = x := by
  rw [wrap360, goMod_eq_self x 360 h0 h1]
  have hq : 0 ≤ (x + 360) / 360 := by positivity
  rw [goMod, ratTrunc_nonneg_eq _ hq]
  have : ⌊(x + 360) / 360⌋ = 1 := by
    rw [Int.floor_eq_iff]
    constructor
    · rw [le_div_iff₀ (by norm_num : (0:ℚ) < 360)]; push_cast; linarith
    · rw [div_lt_iff₀ (by norm_num : (0:ℚ) < 360)]; push_cast; linarith
  rw [this]
  push_cast
  ring

theorem wrap360_idem (x : ℚ) : wrap360 (wrap360 x) = wrap360 x := by
  obtain ⟨h0, h1⟩ := wrap360_bounds x
  exact wrap360_of_Ico _ h0 h1

theorem clamp01_idem (x : ℚ) : clamp01 (clamp01 x) = clamp01 x := by
  simp only [clamp01, max_def, min_def]
  split_ifs <;> first | rfl | linarith

theorem clamp01_bounds (x : ℚ) : 0 ≤ clamp01 x ∧ clamp01 x ≤ 1 := by
  simp only [clamp01, max_def, min_def]
  split_ifs <;> constructor <;> linarith

/-- The hue-sector selection in nhsvaFloat64ToRGBA reaches neither panic
branch whenever hf lies in [0, 360]: hf/60 then lies in [0, 6] and one of the
six sector cases applies. -/
theorem nhsvaFloat64ToRGBA_isSome (hf sf vf af : ℚ) (h0 : 0 ≤ hf)
    (h1 : hf ≤ 360) : (nhsvaFloat64ToRGBA hf sf vf af).isSome = true := by
  have h2 : 0 ≤ hf / 60 := by positivity
  have h3 : hf / 60 ≤ 6 := by linarith
  simp only [nhsvaFloat64ToRGBA]
  split_ifs <;> simp_all <;> linarith

/-! ### Helper lemmas: alpha-0 colors convert to the zero RGBA quadruple -/

theorem ratToU32_zero : ratToU32 0 = 0 := by
  simp [ratToU32, ratTrunc]

theorem nhsvaFloat64ToRGBA_alpha0 (hf sf vf : ℚ) (h0 : 0 ≤ hf)
    (h1 : hf ≤ 360) : nhsvaFloat64ToRGBA hf sf vf 0 = some (0, 0, 0, 0) := by
  have h2 : 0 ≤ hf / 60 := by positivity
  have h3 : hf / 60 ≤ 6 := by linarith
  simp only [nhsvaFloat64ToRGBA]
  split_ifs <;> first
  | (exfalso; linarith)
  | simp [ratToU32_zero]

theorem NHSVA_RGBA_alpha0 (c : NHSVA) (hA : c.A = 0) (hH : c.H < 256) :
    NHSVA.RGBA c = some (0, 0, 0, 0) := by
  simp only [NHSVA.RGBA, hA]
  split_ifs with h
  · norm_num
  · rw [show ((0 : ℕ) : ℚ) / 255 = 0 by norm_num]
    apply nhsvaFloat64ToRGBA_alpha0
    · positivity
    · rw [div_le_iff₀ (by norm_num : (0:ℚ) < 255)]
      have : (c.H : ℚ) ≤ 255 := by exact_mod_cast Nat.le_of_lt_succ hH
      nlinarith

theorem NHSVA64_RGBA_alpha0 (c : NHSVA64) (hA : c.A = 0) (hH : c.H < 65536) :
    NHSVA64.RGBA c = some (0, 0, 0, 0) := by
  simp only [NHSVA64.RGBA, hA]
  split_ifs with h
  · norm_num
  · rw [show ((0 : ℕ) : ℚ) / 65535 = 0 by norm_num]
    apply nhsvaFloat64ToRGBA_alpha0
    · positivity
    · rw [div_le_iff₀ (by norm_num : (0:ℚ) < 65535)]
      have : (c.H : ℚ) ≤ 65535 := by exact_mod_cast Nat.le_of_lt_succ hH
      nlinarith

theorem clamp01_of_nonpos (x : ℚ) (h : x ≤ 0) : clamp01 x = 0 := by
  simp only [clamp01, max_def, min_def]
  split_ifs <;> linarith

theorem NHSVAF64_RGBA_alpha0 (c : NHSVAF64) (hA : c.A ≤ 0) :
    NHSVAF64.RGBA c = some (0, 0, 0, 0) := by
  simp only [NHSVAF64.RGBA, clamp01_of_nonpos c.A hA]
  split_ifs with h
  · simp [ratToU32_zero]
  · exact nhsvaFloat64ToRGBA_alpha0 _ _ _ (wrap360_bounds c.H).1
      (le_of_lt (wrap360_bounds c.H).2)

/-! ### The claims -/

/-- C2 counterexample: the alpha-0 color NHSVA64{60000, 60000, 0, 0} is not
an NHSVA, so the 8-bit conversion applies to it, yet NHSVAModel.Convert
returns NHSVA{233, 233, 0, 0}: nhsva64Model's inner identity fast path
returns the NHSVA64 unchanged, bypassing the alpha-0 test, and the channels
are then merely scaled — hue and saturation leak at alpha 0, refuting the
claim as stated. -/
theorem claim_C2_counterexample :
    (⟨60000, 60000, 0, 0⟩ : NHSVA64).A = 0 ∧
    nhsvaModel (GoColor.nhsva64 ⟨60000, 60000, 0, 0⟩) = some ⟨233, 233, 0, 0⟩ ∧
    ¬ nhsvaModel (GoColor.nhsva64 ⟨60000, 60000, 0, 0⟩) = some ⟨0, 0, 0, 0⟩ ∧
    nhsva64Model (GoColor.nhsva64 ⟨60000, 60000, 0, 0⟩) =
      some ⟨60000, 60000, 0, 0⟩ ∧
    ¬ nhsva64Model (GoColor.nhsva64 ⟨60000, 60000, 0, 0⟩) =
      some ⟨0, 0, 0, 0⟩ := by
  decide

/-- C2 as amended: for every input color with alpha 0 whose conversion
reaches a model's generic path, the conversion returns the canonical
fully-transparent zero value of the target type — any external color given
by its RGBA quadruple, through all three models; an NHSVA fed to the 16-bit
or float model; an NHSVA64 fed to the float model; an NHSVAF64 fed to the
16-bit or 8-bit model.  Excluded, as the counterexample forces: an input
already of the model's target type (returned unchanged by the identity fast
path), and an NHSVA64 fed to the 8-bit model (returned by nhsva64Model's
inner identity fast path and merely scaled, so hue/saturation can leak). -/
theorem claim_C2_amended :
    (∀ r g b : ℕ,
      nhsva64Model (GoColor.other r g b 0) = some ⟨0, 0, 0, 0⟩ ∧
      nhsvaModel (GoColor.other r g b 0) = some ⟨0, 0, 0, 0⟩ ∧
      nhsvaF64Model (GoColor.other r g b 0) = some ⟨0, 0, 0, 0⟩) ∧
    (∀ c : NHSVA, c.A = 0 → c.H < 256 →
      nhsva64Model (GoColor.nhsva c) = some ⟨0, 0, 0, 0⟩ ∧
      nhsvaF64Model (GoColor.nhsva c) = some ⟨0, 0, 0, 0⟩) ∧
    (∀ c : NHSVA64, c.A = 0 → c.H < 65536 →
      nhsvaF64Model (GoColor.nhsva64 c) = some ⟨0, 0, 0, 0⟩) ∧
    (∀ c : NHSVAF64, c.A ≤ 0 →
      nhsva64Model (GoColor.nhsvaF64 c) = some ⟨0, 0, 0, 0⟩ ∧
      nhsvaModel (GoColor.nhsvaF64 c) = some ⟨0, 0, 0, 0⟩) := by
  refine ⟨?_, ?_, ?_, ?_⟩
  · intro r g b
    refine ⟨rfl, ?_, rfl⟩
    simp [nhsvaModel, nhsva64Model, GoColor.rgba, nhsva64ModelRGBA, nhsvaScale]
  · intro c hA hH
    constructor
    · simp [nhsva64Model, GoColor.rgba, NHSVA_RGBA_alpha0 c hA hH]
      rfl
    · simp [nhsvaF64Model, GoColor.rgba, NHSVA_RGBA_alpha0 c hA hH]
      rfl
  · intro c hA hH
    simp [nhsvaF64Model, GoColor.rgba, NHSVA64_RGBA_alpha0 c hA hH]
    rfl
  · intro c hA
    have h64 : nhsva64Model (GoColor.nhsvaF64 c) = some ⟨0, 0, 0, 0⟩ := by
      simp [nhsva64Model, GoColor.rgba, NHSVAF64_RGBA_alpha0 c hA]
      rfl
    refine ⟨h64, ?_⟩
    simp [nhsvaModel, h64]
    rfl

/-- C2 witness: an alpha-0 NHSVA with nonzero hue, saturation and value,
exercising the chromatic generic path of the 16-bit and float models. -/
theorem claim_C2_witness :
    nhsva64Model (GoColor.nhsva ⟨7, 9, 11, 0⟩) = some ⟨0, 0, 0, 0⟩ ∧
    nhsvaF64Model (GoColor.nhsva ⟨7, 9, 11, 0⟩) = some ⟨0, 0, 0, 0⟩ :=
  claim_C2_amended.2.1 ⟨7, 9, 11, 0⟩ rfl (by decide)

set_option maxRecDepth 8192 in
/-- C3: for every v in [0,255], converting the fully opaque gray color of
luminance v to NHSVA yields exactly {H 0, S 0, V v, A 255}, and converting
that value back to premultiplied RGBA yields exactly the 16-bit-scaled gray
(257v, 257v, 257v, 65535); in particular full opacity and full value map to
the maximum representable value. -/
theorem claim_C3 : ∀ v : ℕ, v < 256 →
    convertGray v = ⟨0, 0, v, 255⟩ ∧
    NHSVA.RGBA ⟨0, 0, v, 255⟩ = some (257 * v, 257 * v, 257 * v, 65535) := by
  decide

/-- C3 witness at v = 200 (257 * 200 = 51400). -/
theorem claim_C3_witness :
    convertGray 200 = ⟨0, 0, 200, 255⟩ ∧
    NHSVA.RGBA ⟨0, 0, 200, 255⟩ =
      some (257 * 200, 257 * 200, 257 * 200, 65535) :=
  claim_C3 200 (by decide)

/-- C7: the opaque 8-bit named colors convert to the stated NHSVA fixed
points: black, white, red, green, blue and dark blue. -/
theorem claim_C7 :
    convertRGBA8 0 0 0 255 = ⟨0, 0, 0, 255⟩ ∧
    convertRGBA8 255 255 255 255 = ⟨0, 0, 255, 255⟩ ∧
    convertRGBA8 255 0 0 255 = ⟨0, 255, 255, 255⟩ ∧
    convertRGBA8 0 255 0 255 = ⟨85, 255, 255, 255⟩ ∧
    convertRGBA8 0 0 255 255 = ⟨170, 255, 255, 255⟩ ∧
    convertRGBA8 0 0 128 255 = ⟨170, 255, 128, 255⟩ := by
  decide

/-- C8: for every NHSVA value and every NHSVA64 value (channels in their
uint8 / uint16 ranges), RGBA() never reaches either internal-error panic
branch of the hue-sector selection (embedded: the result is never none),
because the computed hue/60 sector index always lies in [0, 6]. -/
theorem claim_C8 :
    (∀ c : NHSVA, c.H < 256 → c.S < 256 → c.V < 256 → c.A < 256 →
      (NHSVA.RGBA c).isSome = true) ∧
    (∀ c : NHSVA64, c.H < 65536 → c.S < 65536 → c.V < 65536 → c.A < 65536 →
      (NHSVA64.RGBA c).isSome = true) := by
  constructor
  · intro c hH hS hV hA
    simp only [NHSVA.RGBA]
    split_ifs with h
    · simp
    · apply nhsvaFloat64ToRGBA_isSome
      · positivity
      · rw [div_le_iff₀ (by norm_num : (0:ℚ) < 255)]
        have : (c.H : ℚ) ≤ 255 := by exact_mod_cast Nat.le_of_lt_succ hH
        nlinarith
  · intro c hH hS hV hA
    simp only [NHSVA64.RGBA]
    split_ifs with h
    · simp
    · apply nhsvaFloat64ToRGBA_isSome
      · positivity
      · rw [div_le_iff₀ (by norm_num : (0:ℚ) < 65535)]
        have : (c.H : ℚ) ≤ 65535 := by exact_mod_cast Nat.le_of_lt_succ hH
        nlinarith

/-- C8 witness: both conversions at a concrete in-range chromatic color. -/
theorem claim_C8_witness :
    (NHSVA.RGBA ⟨10, 20, 30, 40⟩).isSome = true ∧
    (NHSVA64.RGBA ⟨1000, 2000, 3000, 4000⟩).isSome = true :=
  ⟨claim_C8.1 ⟨10, 20, 30, 40⟩ (by decide) (by decide) (by decide) (by decide),
    claim_C8.2 ⟨1000, 2000, 3000, 4000⟩ (by decide) (by decide) (by decide)
      (by decide)⟩

/-- C9: for every NHSVAF64 color, including out-of-range channel values,
RGBA() returns a value (tolerates the input without fault) and agrees with
RGBA() of the normalized color whose hue is wrapped modulo 360 into [0,360)
and whose saturation, value and alpha are clamped to [0,1]. -/
theorem claim_C9 : ∀ c : NHSVAF64,
    NHSVAF64.RGBA c =
      NHSVAF64.RGBA ⟨wrap360 c.H, clamp01 c.S, clamp01 c.V, clamp01 c.A⟩ ∧
    (NHSVAF64.RGBA c).isSome = true ∧
    (0 ≤ wrap360 c.H ∧ wrap360 c.H < 360) ∧
    (0 ≤ clamp01 c.S ∧ clamp01 c.S ≤ 1) ∧
    (0 ≤ clamp01 c.V ∧ clamp01 c.V ≤ 1) ∧
    (0 ≤ clamp01 c.A ∧ clamp01 c.A ≤ 1) := by
  intro c
  refine ⟨?_, ?_, wrap360_bounds _, clamp01_bounds _, clamp01_bounds _,
    clamp01_bounds _⟩
  · simp only [NHSVAF64.RGBA, wrap360_idem, clamp01_idem]
  · simp only [NHSVAF64.RGBA]
    split_ifs with h
    · simp
    · exact nhsvaFloat64ToRGBA_isSome _ _ _ _ (wrap360_bounds c.H).1
        (le_of_lt (wrap360_bounds c.H).2)

/-- SubImage never faults for a well-formed header, its result's rectangle is
exactly the intersection, and an empty intersection yields the zero-valued
image (no storage, empty rectangle), the offset computation being skipped. -/
theorem subImage_total (bpp : ℤ) (memLen : ℕ) (p : Img) (r : Rectangle)
    (hwf : WF bpp memLen p) (hbpp : 0 < bpp) :
    ∃ s, subImage bpp p r = some s ∧ s.rect = r.Intersect p.rect ∧
      ((r.Intersect p.rect).Empty = true → s = zeroImg) := by
  by_cases hemp : (r.Intersect p.rect).Empty = true
  · refine ⟨zeroImg, ?_, ?_, fun _ => rfl⟩
    · simp only [subImage]
      rw [if_pos hemp]
    · rw [Intersect_empty_eq_zero _ _ hemp]
      rfl
  · have hne : (r.Intersect p.rect).Empty = false := by
      simpa using hemp
    have hmin := In_min_of_nonempty _ hne
    obtain ⟨hminr, hminp⟩ := In_Intersect hmin
    obtain ⟨hp0, hpb⟩ := WF_pix hwf hminp
    refine ⟨⟨p.off + (pixOffset bpp p (r.Intersect p.rect).min.x
        (r.Intersect p.rect).min.y).toNat,
      p.len - (pixOffset bpp p (r.Intersect p.rect).min.x
        (r.Intersect p.rect).min.y).toNat, p.stride, r.Intersect p.rect⟩,
      ?_, rfl, by simp [hemp]⟩
    simp only [subImage]
    rw [if_neg (by simp [hne]), if_pos ⟨hp0, by omega⟩]

/-- C1: for each of the three image types, a sub-image with non-empty
clipped rectangle keeps the parent's stride and aliases the parent's
backing storage: writing a typed color at a coordinate inside the
intersection through the sub-image and reading the same absolute coordinate
through the parent returns that color, and a write through the parent is
likewise visible through the sub-image.  (For the 16-bit type the stored
channels must be in uint16 range, as they are for any real NHSVA64 value.) -/
theorem claim_C1 :
    (∀ (mem : List ℕ) (p : Img) (r : Rectangle) (s : Img) (x y : ℤ) (c : NHSVA),
      WF 4 mem.length p → NHSVASubImage p r = some s →
      (Point.mk x y).In (r.Intersect p.rect) = true →
      s.stride = p.stride ∧
      NHSVAAt (SetNHSVA mem s x y c) p x y = c ∧
      NHSVAAt (SetNHSVA mem p x y c) s x y = c) ∧
    (∀ (mem : List ℕ) (p : Img) (r : Rectangle) (s : Img) (x y : ℤ) (c : NHSVA64),
      WF 8 mem.length p → NHSVA64SubImage p r = some s →
      (Point.mk x y).In (r.Intersect p.rect) = true →
      c.H < 65536 → c.S < 65536 → c.V < 65536 → c.A < 65536 →
      s.stride = p.stride ∧
      NHSVA64At (SetNHSVA64 mem s x y c) p x y = c ∧
      NHSVA64At (SetNHSVA64 mem p x y c) s x y = c) ∧
    (∀ (mem : List ℚ) (p : Img) (r : Rectangle) (s : Img) (x y : ℤ) (c : NHSVAF64),
      WF 4 mem.length p → NHSVAF64SubImage p r = some s →
      (Point.mk x y).In (r.Intersect p.rect) = true →
      s.stride = p.stride ∧
      NHSVAF64At (SetNHSVAF64 mem s x y c) p x y = c ∧
      NHSVAF64At (SetNHSVAF64 mem p x y c) s x y = c) := by
  refine ⟨?_, ?_, ?_⟩
  · intro mem p r s x y c hwf hsub hin2
    have hne := In_nonempty hin2
    obtain ⟨hrect, hstr, hoff, hpix0⟩ := subImage_inv 4 p r s hsub hne
    obtain ⟨hinr, hinp⟩ := In_Intersect hin2
    have hins : (Point.mk x y).In s.rect = true := by rw [hrect]; exact hin2
    have haddr : (s.off : ℤ) + pixOffset 4 s x y =
        (p.off : ℤ) + pixOffset 4 p x y := by
      rw [hoff]
      simp only [pixOffset, hstr, hrect]
      ring
    obtain ⟨hp0, hp4⟩ := WF_pix hwf hinp
    have h0 : 0 ≤ (p.off : ℤ) + pixOffset 4 p x y := by omega
    have h4 : (p.off : ℤ) + pixOffset 4 p x y + 4 ≤ (mem.length : ℤ) := by
      have := hwf.1
      omega
    refine ⟨hstr, ?_, ?_⟩
    · exact NHSVAAt_SetNHSVA_alias mem p s x y c hinp hins haddr h0 h4
    · exact NHSVAAt_SetNHSVA_alias mem s p x y c hins hinp haddr.symm
        (by rw [haddr]; exact h0) (by rw [haddr]; exact h4)
  · intro mem p r s x y c hwf hsub hin2 hH hS hV hA
    have hne := In_nonempty hin2
    obtain ⟨hrect, hstr, hoff, hpix0⟩ := subImage_inv 8 p r s hsub hne
    obtain ⟨hinr, hinp⟩ := In_Intersect hin2
    have hins : (Point.mk x y).In s.rect = true := by rw [hrect]; exact hin2
    have haddr : (s.off : ℤ) + pixOffset 8 s x y =
        (p.off : ℤ) + pixOffset 8 p x y := by
      rw [hoff]
      simp only [pixOffset, hstr, hrect]
      ring
    obtain ⟨hp0, hp8⟩ := WF_pix hwf hinp
    have h0 : 0 ≤ (p.off : ℤ) + pixOffset 8 p x y := by omega
    have h8 : (p.off : ℤ) + pixOffset 8 p x y + 8 ≤ (mem.length : ℤ) := by
      have := hwf.1
      omega
    refine ⟨hstr, ?_, ?_⟩
    · exact NHSVA64At_SetNHSVA64_alias mem p s x y c hinp hins haddr h0 h8
        hH hS hV hA
    · exact NHSVA64At_SetNHSVA64_alias mem s p x y c hins hinp haddr.symm
        (by rw [haddr]; exact h0) (by rw [haddr]; exact h8) hH hS hV hA
  · intro mem p r s x y c hwf hsub hin2
    have hne := In_nonempty hin2
    obtain ⟨hrect, hstr, hoff, hpix0⟩ := subImage_inv 4 p r s hsub hne
    obtain ⟨hinr, hinp⟩ := In_Intersect hin2
    have hins : (Point.mk x y).In s.rect = true := by rw [hrect]; exact hin2
    have haddr : (s.off : ℤ) + pixOffset 4 s x y =
        (p.off : ℤ) + pixOffset 4 p x y := by
      rw [hoff]
      simp only [pixOffset, hstr, hrect]
      ring
    obtain ⟨hp0, hp4⟩ := WF_pix hwf hinp
    have h0 : 0 ≤ (p.off : ℤ) + pixOffset 4 p x y := by omega
    have h4 : (p.off : ℤ) + pixOffset 4 p x y + 4 ≤ (mem.length : ℤ) := by
      have := hwf.1
      omega
    refine ⟨hstr, ?_, ?_⟩
    · exact NHSVAF64At_SetNHSVAF64_alias mem p s x y c hinp hins haddr h0 h4
    · exact NHSVAF64At_SetNHSVAF64_alias mem s p x y c hins hinp haddr.symm
        (by rw [haddr]; exact h0) (by rw [haddr]; exact h4)

/-- C1 witness: a 2x2 8-bit buffer, the sub-image at (1,1)-(2,2), and both
write/read directions at (1,1). -/
theorem claim_C1_witness :
    (⟨12, 4, 8, ⟨⟨1, 1⟩, ⟨2, 2⟩⟩⟩ : Img).stride =
      (⟨0, 16, 8, ⟨⟨0, 0⟩, ⟨2, 2⟩⟩⟩ : Img).stride ∧
    NHSVAAt (SetNHSVA (List.replicate 16 0) ⟨12, 4, 8, ⟨⟨1, 1⟩, ⟨2, 2⟩⟩⟩ 1 1
      ⟨9, 8, 7, 6⟩) ⟨0, 16, 8, ⟨⟨0, 0⟩, ⟨2, 2⟩⟩⟩ 1 1 = ⟨9, 8, 7, 6⟩ ∧
    NHSVAAt (SetNHSVA (List.replicate 16 0) ⟨0, 16, 8, ⟨⟨0, 0⟩, ⟨2, 2⟩⟩⟩ 1 1
      ⟨9, 8, 7, 6⟩) ⟨12, 4, 8, ⟨⟨1, 1⟩, ⟨2, 2⟩⟩⟩ 1 1 = ⟨9, 8, 7, 6⟩ :=
  claim_C1.1 (List.replicate 16 0) ⟨0, 16, 8, ⟨⟨0, 0⟩, ⟨2, 2⟩⟩⟩
    ⟨⟨1, 1⟩, ⟨2, 2⟩⟩ ⟨12, 4, 8, ⟨⟨1, 1⟩, ⟨2, 2⟩⟩⟩ 1 1 ⟨9, 8, 7, 6⟩
    (by decide) (by decide) (by decide)

/-- C4: for each of the three image types, SubImage returns (never faults on
a well-formed buffer) a buffer whose bounds are exactly the intersection of
the requested rectangle with the parent's bounds, and an empty intersection
yields the zero-valued buffer: no storage, empty rectangle, no storage
offset computed. -/
theorem claim_C4 :
    (∀ (memLen : ℕ) (p : Img) (r : Rectangle), WF 4 memLen p →
      ∃ s, NHSVASubImage p r = some s ∧ s.rect = r.Intersect p.rect ∧
        ((r.Intersect p.rect).Empty = true → s = zeroImg)) ∧
    (∀ (memLen : ℕ) (p : Img) (r : Rectangle), WF 8 memLen p →
      ∃ s, NHSVA64SubImage p r = some s ∧ s.rect = r.Intersect p.rect ∧
        ((r.Intersect p.rect).Empty = true → s = zeroImg)) ∧
    (∀ (memLen : ℕ) (p : Img) (r : Rectangle), WF 4 memLen p →
      ∃ s, NHSVAF64SubImage p r = some s ∧ s.rect = r.Intersect p.rect ∧
        ((r.Intersect p.rect).Empty = true → s = zeroImg)) :=
  ⟨fun memLen p r hwf => subImage_total 4 memLen p r hwf (by norm_num),
    fun memLen p r hwf => subImage_total 8 memLen p r hwf (by norm_num),
    fun memLen p r hwf => subImage_total 4 memLen p r hwf (by norm_num)⟩

/-- C4 witness: the (10,10)-(10,10) request on a (0,0)-(2,2) buffer (an
empty intersection) resolves without fault. -/
theorem claim_C4_witness :
    ∃ s, NHSVASubImage ⟨0, 16, 8, ⟨⟨0, 0⟩, ⟨2, 2⟩⟩⟩ ⟨⟨10, 10⟩, ⟨10, 10⟩⟩ =
        some s ∧
      s.rect = Rectangle.Intersect ⟨⟨10, 10⟩, ⟨10, 10⟩⟩
        (⟨0, 16, 8, ⟨⟨0, 0⟩, ⟨2, 2⟩⟩⟩ : Img).rect ∧
      ((Rectangle.Intersect ⟨⟨10, 10⟩, ⟨10, 10⟩⟩
          (⟨0, 16, 8, ⟨⟨0, 0⟩, ⟨2, 2⟩⟩⟩ : Img).rect).Empty = true →
        s = zeroImg) :=
  claim_C4.1 16 ⟨0, 16, 8, ⟨⟨0, 0⟩, ⟨2, 2⟩⟩⟩ ⟨⟨10, 10⟩, ⟨10, 10⟩⟩ (by decide)

/-- C5: for every buffer of any of the three precisions and every coordinate
outside its rectangle, each getter (typed; the generic At returns the typed
getter's value) returns the zero fully-transparent color, and each setter
(typed and generic) leaves the store unchanged; every operation is total, so
nothing is raised or signalled. -/
theorem claim_C5 :
    ∀ (x y : ℤ) (p : Img), (Point.mk x y).In p.rect = false →
      (∀ mem : List ℕ,
        NHSVAAt mem p x y = ⟨0, 0, 0, 0⟩ ∧
        NHSVA64At mem p x y = ⟨0, 0, 0, 0⟩ ∧
        (∀ c, SetNHSVA mem p x y c = mem) ∧
        (∀ c, SetNHSVA64 mem p x y c = mem) ∧
        (∀ r g b a, SetGenericNHSVA mem p x y r g b a = mem) ∧
        (∀ r g b a, SetGenericNHSVA64 mem p x y r g b a = mem)) ∧
      (∀ mem : List ℚ,
        NHSVAF64At mem p x y = ⟨0, 0, 0, 0⟩ ∧
        (∀ c, SetNHSVAF64 mem p x y c = mem) ∧
        (∀ r g b a, SetGenericNHSVAF64 mem p x y r g b a = mem)) := by
  intro x y p h
  constructor
  · intro mem
    refine ⟨?_, ?_, fun c => ?_, fun c => ?_, fun r g b a => ?_,
      fun r g b a => ?_⟩
    · rw [NHSVAAt, if_neg (by simp [h])]
    · rw [NHSVA64At, if_neg (by simp [h])]
    · rw [SetNHSVA, if_neg (by simp [h])]
    · rw [SetNHSVA64, if_neg (by simp [h])]
    · rw [SetGenericNHSVA, if_neg (by simp [h])]
    · rw [SetGenericNHSVA64, if_neg (by simp [h])]
  · intro mem
    refine ⟨?_, fun c => ?_, fun r g b a => ?_⟩
    · rw [NHSVAF64At, if_neg (by simp [h])]
    · rw [SetNHSVAF64, if_neg (by simp [h])]
    · rw [SetGenericNHSVAF64, if_neg (by simp [h])]

/-- C5 witness: reading a 2x2 buffer at the out-of-bounds coordinate (5,5)
yields the zero color. -/
theorem claim_C5_witness :
    NHSVAAt (List.replicate 16 3) ⟨0, 16, 8, ⟨⟨0, 0⟩, ⟨2, 2⟩⟩⟩ 5 5 =
      ⟨0, 0, 0, 0⟩ :=
  ((claim_C5 5 5 ⟨0, 16, 8, ⟨⟨0, 0⟩, ⟨2, 2⟩⟩⟩ (by decide)).1
    (List.replicate 16 3)).1

/-- C6: for each of the three image types on a well-formed buffer, Opaque
returns true exactly when every pixel inside the rectangle has its alpha
channel at the maximum representable value (255 / 65535 / 1.0); an empty
rectangle is vacuously opaque. -/
theorem claim_C6 :
    (∀ (mem : List ℕ) (p : Img), WF 4 mem.length p →
      (NHSVAOpaque mem p = true ↔
        ∀ x y : ℤ, (Point.mk x y).In p.rect = true →
          (NHSVAAt mem p x y).A = 255)) ∧
    (∀ (mem : List ℕ) (p : Img), WF 8 mem.length p → ByteStore mem →
      (NHSVA64Opaque mem p = true ↔
        ∀ x y : ℤ, (Point.mk x y).In p.rect = true →
          (NHSVA64At mem p x y).A = 65535)) ∧
    (∀ (mem : List ℚ) (p : Img), WF 4 mem.length p →
      (NHSVAF64Opaque mem p = true ↔
        ∀ x y : ℤ, (Point.mk x y).In p.rect = true →
          (NHSVAF64At mem p x y).A = 1)) ∧
    (∀ (mem : List ℕ) (p : Img), p.rect.Empty = true →
      NHSVAOpaque mem p = true ∧ NHSVA64Opaque mem p = true) ∧
    (∀ (mem : List ℚ) (p : Img), p.rect.Empty = true →
      NHSVAF64Opaque mem p = true) :=
  ⟨NHSVAOpaque_iff, NHSVA64Opaque_iff, NHSVAF64Opaque_iff,
    fun mem p h => ⟨by rw [NHSVAOpaque, if_pos h], by rw [NHSVA64Opaque, if_pos h]⟩,
    fun mem p h => by rw [NHSVAF64Opaque, if_pos h]⟩

/-- C6 witness: the scan of a fully opaque 2x2 8-bit buffer matches the
per-pixel alpha test. -/
theorem claim_C6_witness :
    NHSVAOpaque (List.replicate 16 255) ⟨0, 16, 8, ⟨⟨0, 0⟩, ⟨2, 2⟩⟩⟩ = true ↔
      ∀ x y : ℤ,
        (Point.mk x y).In (⟨0, 16, 8, ⟨⟨0, 0⟩, ⟨2, 2⟩⟩⟩ : Img).rect = true →
        (NHSVAAt (List.replicate 16 255) ⟨0, 16, 8, ⟨⟨0, 0⟩, ⟨2, 2⟩⟩⟩ x y).A =
          255 :=
  claim_C6.1 (List.replicate 16 255) ⟨0, 16, 8, ⟨⟨0, 0⟩, ⟨2, 2⟩⟩⟩ (by decide)

/-- C10: for each of the three image types, on a well-formed buffer the
typed setter followed by the typed getter at the same in-bounds coordinate
returns exactly the written color; for the 16-bit type the big-endian byte
split on write and byte-pair reassembly on read are mutually inverse for
channels in uint16 range. -/
theorem claim_C10 :
    (∀ (mem : List ℕ) (p : Img) (x y : ℤ) (c : NHSVA),
      WF 4 mem.length p → (Point.mk x y).In p.rect = true →
      NHSVAAt (SetNHSVA mem p x y c) p x y = c) ∧
    (∀ (mem : List ℕ) (p : Img) (x y : ℤ) (c : NHSVA64),
      WF 8 mem.length p → (Point.mk x y).In p.rect = true →
      c.H < 65536 → c.S < 65536 → c.V < 65536 → c.A < 65536 →
      NHSVA64At (SetNHSVA64 mem p x y c) p x y = c) ∧
    (∀ (mem : List ℚ) (p : Img) (x y : ℤ) (c : NHSVAF64),
      WF 4 mem.length p → (Point.mk x y).In p.rect = true →
      NHSVAF64At (SetNHSVAF64 mem p x y c) p x y = c) := by
  refine ⟨?_, ?_, ?_⟩
  · intro mem p x y c hwf hin
    obtain ⟨hp0, hp4⟩ := WF_pix hwf hin
    exact NHSVAAt_SetNHSVA_alias mem p p x y c hin hin rfl (by omega)
      (by have := hwf.1; omega)
  · intro mem p x y c hwf hin hH hS hV hA
    obtain ⟨hp0, hp8⟩ := WF_pix hwf hin
    exact NHSVA64At_SetNHSVA64_alias mem p p x y c hin hin rfl (by omega)
      (by have := hwf.1; omega) hH hS hV hA
  · intro mem p x y c hwf hin
    obtain ⟨hp0, hp4⟩ := WF_pix hwf hin
    exact NHSVAF64At_SetNHSVAF64_alias mem p p x y c hin hin rfl (by omega)
      (by have := hwf.1; omega)

/-- C10 witness: a 2x2 16-bit buffer at (0,0), with multi-byte channel
values exercising the byte split and reassembly. -/
theorem claim_C10_witness :
    NHSVA64At (SetNHSVA64 (List.replicate 32 0) ⟨0, 32, 16, ⟨⟨0, 0⟩, ⟨2, 2⟩⟩⟩
      0 0 ⟨513, 6000, 40000, 65535⟩) ⟨0, 32, 16, ⟨⟨0, 0⟩, ⟨2, 2⟩⟩⟩ 0 0 =
      ⟨513, 6000, 40000, 65535⟩ :=
  claim_C10.2.1 (List.replicate 32 0) ⟨0, 32, 16, ⟨⟨0, 0⟩, ⟨2, 2⟩⟩⟩ 0 0
    ⟨513, 6000, 40000, 65535⟩ (by decide) (by decide) (by decide) (by decide)
    (by decide) (by decide)

end HsvRepo
